import Mathlib

/-!
Verification of the sivasbus extraction and retrieval layer (src/lib.rs).

The Rust source is shallowly embedded:
* `&str` values become `String` / `List Char`; Rust's `str::split("/")`,
  `str::trim`, `i32::from_str` and `f64::from_str` are re-implemented below
  (`splitSlash`, `rustTrim`, `parseI32L`, `parseF64`).
* `f64` values are modelled by `F64`: a rational number for finite literals
  (decimal semantics; rounding to the nearest double is not modelled, no claim
  depends on it), plus `inf`/`nan`, which Rust's `f64::from_str` also accepts.
* The two regexes `var\s+duraks\s*=\s*(\[.*\])` and `hgID\s*:\s*(\d+)` are
  embedded as direct leftmost-match scanners with the regex crate's greedy
  semantics (`.` does not match a newline).  `\s` is modelled by `rsWs` (the
  Unicode White_Space set, as the regex crate and `str::trim` use it) and
  `\d` by `isNd` (the Unicode Nd decimal-digit set; the table below is
  Unicode 16.0 — the sources do not pin the regex crate's bundled Unicode
  version).  The numeric parsers use the ASCII-only `isDig`, which is what
  Rust's `from_str` accepts.
* HTML documents are modelled at the level of the parsed DOM (`Node`); the
  third-party HTML5 parser itself is out of scope, CSS selection over the
  parsed tree is embedded (`elemsList`, `Node.attr`, `textsOf`).
* The two network operations are modelled as state-passing functions over an
  explicit environment (`fetch`, `postJson`) that also return the list of
  requests issued (`Req`), so "no POST was issued" is a statement about the
  returned trace.
-/

instance {ε α : Type} [DecidableEq ε] [DecidableEq α] : DecidableEq (Except ε α)
  | .error e, .error e' => decidable_of_iff (e = e') (by simp)
  | .error _, .ok _ => isFalse (by simp)
  | .ok _, .error _ => isFalse (by simp)
  | .ok a, .ok a' => decidable_of_iff (a = a') (by simp)

/-! ## Character classes (Rust `char::is_whitespace` / regex `\s`, `\d`) -/

/-- The Unicode White_Space set: what Rust's `char::is_whitespace` and the
regex crate's `\s` match. -/
def rsWs (c : Char) : Bool :=
  (9 ≤ c.toNat && c.toNat ≤ 13) || c.toNat = 32 || c.toNat = 133 ||
  c.toNat = 160 || c.toNat = 5760 || (8192 ≤ c.toNat && c.toNat ≤ 8202) ||
  c.toNat = 8232 || c.toNat = 8233 || c.toNat = 8239 || c.toNat = 8287 ||
  c.toNat = 12288

/-- ASCII decimal digit (regex `\d`, and the digits accepted by Rust's
`i32::from_str` / `f64::from_str`). -/
def isDig (c : Char) : Bool := 48 ≤ c.toNat && c.toNat ≤ 57

/-- Unicode decimal digit (category Nd): what the regex crate's
default-Unicode `\d` matches.  Table per Unicode 16.0. -/
def isNd (c : Char) : Bool :=
  let n := c.toNat
  (48 ≤ n && n ≤ 57) || (1632 ≤ n && n ≤ 1641) || (1776 ≤ n && n ≤ 1785) ||
  (1984 ≤ n && n ≤ 1993) || (2406 ≤ n && n ≤ 2415) || (2534 ≤ n && n ≤ 2543) ||
  (2662 ≤ n && n ≤ 2671) || (2790 ≤ n && n ≤ 2799) || (2918 ≤ n && n ≤ 2927) ||
  (3046 ≤ n && n ≤ 3055) || (3174 ≤ n && n ≤ 3183) || (3302 ≤ n && n ≤ 3311) ||
  (3430 ≤ n && n ≤ 3439) || (3558 ≤ n && n ≤ 3567) || (3664 ≤ n && n ≤ 3673) ||
  (3792 ≤ n && n ≤ 3801) || (3872 ≤ n && n ≤ 3881) || (4160 ≤ n && n ≤ 4169) ||
  (4240 ≤ n && n ≤ 4249) || (6112 ≤ n && n ≤ 6121) || (6160 ≤ n && n ≤ 6169) ||
  (6470 ≤ n && n ≤ 6479) || (6608 ≤ n && n ≤ 6617) || (6784 ≤ n && n ≤ 6793) ||
  (6800 ≤ n && n ≤ 6809) || (6992 ≤ n && n ≤ 7001) || (7088 ≤ n && n ≤ 7097) ||
  (7232 ≤ n && n ≤ 7241) || (7248 ≤ n && n ≤ 7257) || (42528 ≤ n && n ≤ 42537) ||
  (43216 ≤ n && n ≤ 43225) || (43264 ≤ n && n ≤ 43273) || (43472 ≤ n && n ≤ 43481) ||
  (43504 ≤ n && n ≤ 43513) || (43600 ≤ n && n ≤ 43609) || (44016 ≤ n && n ≤ 44025) ||
  (65296 ≤ n && n ≤ 65305) || (66720 ≤ n && n ≤ 66729) || (68912 ≤ n && n ≤ 68921) ||
  (68928 ≤ n && n ≤ 68937) || (69734 ≤ n && n ≤ 69743) || (69872 ≤ n && n ≤ 69881) ||
  (69942 ≤ n && n ≤ 69951) || (70096 ≤ n && n ≤ 70105) || (70384 ≤ n && n ≤ 70393) ||
  (70736 ≤ n && n ≤ 70745) || (70864 ≤ n && n ≤ 70873) || (71248 ≤ n && n ≤ 71257) ||
  (71360 ≤ n && n ≤ 71369) || (71376 ≤ n && n ≤ 71395) || (71472 ≤ n && n ≤ 71481) ||
  (71904 ≤ n && n ≤ 71913) || (72016 ≤ n && n ≤ 72025) || (72688 ≤ n && n ≤ 72697) ||
  (72784 ≤ n && n ≤ 72793) || (73040 ≤ n && n ≤ 73049) || (73120 ≤ n && n ≤ 73129) ||
  (73552 ≤ n && n ≤ 73561) || (90416 ≤ n && n ≤ 90425) || (92768 ≤ n && n ≤ 92777) ||
  (92864 ≤ n && n ≤ 92873) || (93008 ≤ n && n ≤ 93017) || (93552 ≤ n && n ≤ 93561) ||
  (118000 ≤ n && n ≤ 118009) || (120782 ≤ n && n ≤ 120831) ||
  (123200 ≤ n && n ≤ 123209) || (123632 ≤ n && n ≤ 123641) ||
  (124144 ≤ n && n ≤ 124153) || (124401 ≤ n && n ≤ 124410) ||
  (125264 ≤ n && n ≤ 125273) || (130032 ≤ n && n ≤ 130041)

/-- Numeric value of a digit string (most significant first). -/
def digVal (cs : List Char) : Nat := cs.foldl (fun a c => a * 10 + (c.toNat - 48)) 0

/-- Rust's `str::trim`: remove leading and trailing Unicode whitespace. -/
def rustTrim (s : String) : String :=
  ⟨((s.data.dropWhile rsWs).reverse.dropWhile rsWs).reverse⟩

/-- Rust's `str::split("/")` on the character list: every `'/'` separates,
empty segments are kept, and the result is never empty. -/
def splitSlash : List Char → List (List Char)
  | [] => [[]]
  | c :: cs =>
    if c = '/' then [] :: splitSlash cs
    else
      match splitSlash cs with
      | [] => [[c]]
      | p :: ps => (c :: p) :: ps

/-- Whether `p` occurs at the start of `l`. -/
def beginsWith : List Char → List Char → Bool
  | [], _ => true
  | _ :: _, [] => false
  | p :: ps, c :: cs => p == c && beginsWith ps cs

/-! ## Rust numeric parsing -/

/-- Rust's `i32::from_str`: optional sign, one or more ASCII digits, value
within the `i32` range; anything else is an error (`None`). -/
def parseI32L (cs : List Char) : Option Int :=
  match cs with
  | [] => none
  | _ =>
    let sd : Bool × List Char :=
      match cs with
      | '+' :: r => (false, r)
      | '-' :: r => (true, r)
      | r => (false, r)
    if sd.2.isEmpty || !sd.2.all isDig then none
    else
      let v : Int := if sd.1 then -(digVal sd.2 : Int) else (digVal sd.2 : Int)
      if -2147483648 ≤ v ∧ v ≤ 2147483647 then some v else none

/-- A parsed `f64` value: finite values carry their exact decimal value as a
rational (double rounding is not modelled); `inf` and `nan` are the special
spellings Rust's `f64::from_str` accepts. -/
inductive F64 where
  | nan : F64
  | inf (neg : Bool) : F64
  | num (q : ℚ) : F64
  deriving DecidableEq, Repr

/-- `m * 10 ^ e` as a rational. -/
def decValue (m : Nat) (e : Int) : ℚ :=
  if 0 ≤ e then (m : ℚ) * (10 : ℚ) ^ e.toNat else (m : ℚ) / (10 : ℚ) ^ (-e).toNat

/-- Finite-number result of the float parser: integer digits `ip`, fraction
digits `fp`, exponent `e`, negated when `neg`. -/
def mkF64 (neg : Bool) (ip fp : List Char) (e : Int) : F64 :=
  let q := decValue (digVal (ip ++ fp)) (e - (fp.length : Int))
  .num (if neg then -q else q)

/-- Optional leading sign; `true` means negative. -/
def parseSign : List Char → Bool × List Char
  | '+' :: r => (false, r)
  | '-' :: r => (true, r)
  | r => (false, r)

/-- Exponent-and-end-of-input part of Rust's `f64::from_str` grammar. -/
def finishF64 (neg : Bool) (ip fp : List Char) (rest : List Char) : Option F64 :=
  match rest with
  | [] => some (mkF64 neg ip fp 0)
  | e :: r =>
    if e = 'e' || e = 'E' then
      let (eneg, r2) := parseSign r
      let ed := r2.takeWhile isDig
      let r3 := r2.dropWhile isDig
      if ed.isEmpty || !r3.isEmpty then none
      else some (mkF64 neg ip fp (if eneg then -(digVal ed : Int) else (digVal ed : Int)))
    else none

/-- Rust's `f64::from_str`: `[sign] (inf | infinity | nan | digits [. digits]
[exp] | . digits [exp])`, case-insensitive for the special values; no
surrounding whitespace; `None` on any other input. -/
def parseF64 (s : String) : Option F64 :=
  let (neg, cs) := parseSign s.data
  let low := cs.map Char.toLower
  if low = ['i', 'n', 'f'] || low = ['i', 'n', 'f', 'i', 'n', 'i', 't', 'y'] then
    some (.inf neg)
  else if low = ['n', 'a', 'n'] then some .nan
  else
    let ip := cs.takeWhile isDig
    let r1 := cs.dropWhile isDig
    match r1 with
    | '.' :: r2 =>
      let fp := r2.takeWhile isDig
      let r3 := r2.dropWhile isDig
      if ip.isEmpty && fp.isEmpty then none else finishF64 neg ip fp r3
    | _ => if ip.isEmpty then none else finishF64 neg ip [] r1

/-! ## Domain model (src/lib.rs data types) -/

structure Coords where
  lat : F64
  long : F64
  deriving DecidableEq, Repr

structure Line where
  id : String
  human_name : String
  deriving DecidableEq, Repr

structure Station where
  id : Int
  human_name : String
  coords : Coords
  deriving DecidableEq, Repr

structure LineBus where
  license_plate : String
  coords : Coords
  deriving DecidableEq, Repr

/-- `arrive_time` models `std::time::Duration::from_secs`: a whole number of
seconds. -/
structure StationBus where
  license_plate : String
  arrive_time : Nat
  deriving DecidableEq, Repr

structure StationDto where
  path : String
  human_name : String
  lat : String
  long : String
  deriving DecidableEq, Repr

structure LineBusDto where
  license_plate : String
  lat : String
  long : String
  deriving DecidableEq, Repr

structure StationBusDto where
  license_plate : String
  arrive_time_secs : Nat
  deriving DecidableEq, Repr

inductive StationError where
  | NoId : StationError
  | Id : StationError
  | Coords : StationError
  deriving DecidableEq, Repr

inductive LineBusError where
  | parseFloat : LineBusError
  deriving DecidableEq, Repr

inductive Error where
  | Request : Error
  | Json : Error
  | StationErr (e : StationError) : Error
  | LineBusErr (e : LineBusError) : Error
  | NoToken : Error
  | NoStations : Error
  | NoLineId : Error
  deriving DecidableEq, Repr

/-! ## Domain converters (`TryFrom` / `From` impls) -/

/-- `impl TryFrom<StationDto> for Station` (src/lib.rs:121-139): id from the
last `/`-segment of the path, parsed as `i32`; name trimmed; coordinates
parsed as `f64`. -/
def Station.tryFrom (dto : StationDto) : Except StationError Station :=
  match (splitSlash dto.path.data).getLast? with
  | none => .error .NoId
  | some seg =>
    match parseI32L seg with
    | none => .error .Id
    | some id =>
      match parseF64 dto.lat with
      | none => .error .Coords
      | some la =>
        match parseF64 dto.long with
        | none => .error .Coords
        | some lo => .ok ⟨id, rustTrim dto.human_name, ⟨la, lo⟩⟩

/-- `impl TryFrom<LineBusDto> for LineBus` (src/lib.rs:55-67). -/
def LineBus.tryFrom (dto : LineBusDto) : Except LineBusError LineBus :=
  match parseF64 dto.lat with
  | none => .error .parseFloat
  | some la =>
    match parseF64 dto.long with
    | none => .error .parseFloat
    | some lo => .ok ⟨rustTrim dto.license_plate, ⟨la, lo⟩⟩

/-- `impl From<StationBusDto> for StationBus` (src/lib.rs:83-90): total. -/
def StationBus.fromDto (dto : StationBusDto) : StationBus :=
  ⟨rustTrim dto.license_plate, dto.arrive_time_secs⟩

/-- The `for dto in dtos { results.push(dto.try_into()?) }` loop used by both
`extract_stations` (src/lib.rs:290-293) and `get_line_buses`
(src/lib.rs:218-221): stops at the first failing element. -/
def convertList {α β ε : Type} (f : α → Except ε β) : List α → Except ε (List β)
  | [] => .ok []
  | x :: xs =>
    match f x with
    | .error e => .error e
    | .ok y =>
      match convertList f xs with
      | .error e => .error e
      | .ok ys => .ok (y :: ys)

/-- The station batch conversion inside `extract_stations`. -/
def convertStations (dtos : List StationDto) : Except StationError (List Station) :=
  convertList Station.tryFrom dtos

/-- The line-bus batch conversion inside `get_line_buses`. -/
def convertLineBuses (dtos : List LineBusDto) : Except LineBusError (List LineBus) :=
  convertList LineBus.tryFrom dtos

/-! ## DOM model and HTML extractors -/

/-- A parsed HTML node: an element with a tag name, attributes and children,
or a text node.  `Html::parse_document` and the HTML5 parser are abstracted:
extractors operate on the parsed tree. -/
inductive Node where
  | elem (tag : String) (attrs : List (String × String)) (children : List Node) : Node
  | text (s : String) : Node

/-- First binding of an attribute name (html5ever keeps the first duplicate). -/
def attrOf (attrs : List (String × String)) (key : String) : Option String :=
  (attrs.find? (fun a => a.1 = key)).map (fun a => a.2)

/-- `ElementRef::attr`. -/
def Node.attr (n : Node) (key : String) : Option String :=
  match n with
  | .elem _ attrs _ => attrOf attrs key
  | .text _ => none

/-- Tag test of a CSS type selector. -/
def Node.isTag (n : Node) (t : String) : Bool :=
  match n with
  | .elem tg _ _ => tg = t
  | .text _ => false

mutual
/-- All element nodes of a subtree in document (preorder) order, as
`Html::select` iterates them. -/
def elemsOf : Node → List Node
  | .text _ => []
  | .elem t a cs => .elem t a cs :: elemsList cs

/-- All element nodes of a forest in document order. -/
def elemsList : List Node → List Node
  | [] => []
  | n :: ns => elemsOf n ++ elemsList ns
end

mutual
/-- All descendant text-node contents in document order, as
`ElementRef::text` iterates them. -/
def textsOf : Node → List String
  | .text s => [s]
  | .elem _ _ cs => textsList cs

/-- Text-node contents of a forest in document order. -/
def textsList : List Node → List String
  | [] => []
  | n :: ns => textsOf n ++ textsList ns
end

/-- The CSS selector `input[name="__RequestVerificationToken"]`. -/
def isTokenInput (n : Node) : Bool :=
  n.isTag "input" && Node.attr n "name" == some "__RequestVerificationToken"

/-- `extract_token` (src/lib.rs:246-253): the `value` attribute of the first
matching input, `None` when there is no match or no `value` attribute. -/
def extract_token (doc : List Node) : Option String :=
  ((elemsList doc).find? isTokenInput).bind (fun e => Node.attr e "value")

/-- The CSS selector `a[href^="/hat/"]`. -/
def isHatAnchor (n : Node) : Bool :=
  n.isTag "a" &&
    match Node.attr n "href" with
    | some h => beginsWith "/hat/".data h.data
    | none => false

/-- The `filter_map` body of `extract_lines`: id from the last `/`-segment of
the href, name from the first text node, trimmed; `None` skips the anchor. -/
def lineOf (n : Node) : Option Line := do
  let href ← Node.attr n "href"
  let seg ← (splitSlash href.data).getLast?
  let t ← (textsOf n).head?
  some ⟨⟨seg⟩, rustTrim t⟩

/-- `extract_lines` (src/lib.rs:265-274): one `Line` per selected anchor that
survives the `filter_map`; failures are silently skipped. -/
def extract_lines (doc : List Node) : List Line :=
  ((elemsList doc).filter isHatAnchor).filterMap lineOf

/-! ## Regex extractors

`extract_station_json` uses `var\s+duraks\s*=\s*(\[.*\])` and
`extract_line_id` uses `hgID\s*:\s*(\d+)`; both are embedded as leftmost-match
scanners with the regex crate's greedy semantics. -/

/-- Match a literal character sequence and return the rest. -/
def dropLit : List Char → List Char → Option (List Char)
  | [], cs => some cs
  | _ :: _, [] => none
  | p :: ps, c :: cs => if c = p then dropLit ps cs else none

/-- `\s+` followed by a non-whitespace literal: consume a nonempty maximal
whitespace run. -/
def wsPlus (cs : List Char) : Option (List Char) :=
  match cs with
  | [] => none
  | c :: r => if rsWs c then some (r.dropWhile rsWs) else none

/-- Greedy `.*\]` of the duraks regex: inside the current line (`.` does not
match `'\n'`), consume up to and including the last `']'`; fail when the line
holds no `']'`.  Returns the matched characters. -/
def greedyBody (cs : List Char) : Option (List Char) :=
  let run := cs.takeWhile (fun c => c != '\n')
  let r := run.reverse.dropWhile (fun c => c != ']')
  if r.isEmpty then none else some r.reverse

/-- The `\s*=\s*(\[.*\])` tail of the duraks regex, applied after the
literal `duraks`. -/
def duraksEq (r3 : List Char) : Option (List Char) :=
  match dropLit ['='] (r3.dropWhile rsWs) with
  | none => none
  | some r5 =>
    match dropLit ['['] (r5.dropWhile rsWs) with
    | none => none
    | some r7 =>
      match greedyBody r7 with
      | none => none
      | some b => some ('[' :: b)

/-- The `duraks\s*=\s*(\[.*\])` tail of the duraks regex, applied after
`var\s+`. -/
def duraksTail (r2 : List Char) : Option (List Char) :=
  match dropLit ['d', 'u', 'r', 'a', 'k', 's'] r2 with
  | none => none
  | some r3 => duraksEq r3

/-- One attempt of `var\s+duraks\s*=\s*(\[.*\])` anchored at the start of
`cs`; returns the text of capture group 1. -/
def matchDuraksAt (cs : List Char) : Option (List Char) :=
  match dropLit ['v', 'a', 'r'] cs with
  | none => none
  | some r1 =>
    match wsPlus r1 with
    | none => none
    | some r2 => duraksTail r2

/-- Leftmost match of the duraks regex: try every start position. -/
def findDuraks : List Char → Option (List Char)
  | [] => none
  | c :: cs =>
    match matchDuraksAt (c :: cs) with
    | some r => some r
    | none => findDuraks cs

/-- `extract_station_json` (src/lib.rs:276-284). -/
def extract_station_json (doc : String) : Option String :=
  (findDuraks doc.data).map (fun cs => ⟨cs⟩)

/-- `\d+` at the end of the pattern: a nonempty maximal run of Unicode
decimal digits. -/
def digitsPlus (cs : List Char) : Option (List Char) :=
  match cs with
  | [] => none
  | c :: r => if isNd c then some (c :: r.takeWhile isNd) else none

/-- One attempt of `hgID\s*:\s*(\d+)` anchored at the start of `cs`; returns
the text of capture group 1. -/
def matchHgAt (cs : List Char) : Option (List Char) :=
  match dropLit ['h', 'g', 'I', 'D'] cs with
  | none => none
  | some r1 =>
    match dropLit [':'] (r1.dropWhile rsWs) with
    | none => none
    | some r3 => digitsPlus (r3.dropWhile rsWs)

/-- Leftmost match of the hgID regex. -/
def findHg : List Char → Option (List Char)
  | [] => none
  | c :: cs =>
    match matchHgAt (c :: cs) with
    | some r => some r
    | none => findHg cs

/-- `extract_line_id` (src/lib.rs:255-263). -/
def extract_line_id (doc : String) : Option String :=
  (findHg doc.data).map (fun cs => ⟨cs⟩)

/-- `extract_stations` (src/lib.rs:286-295); the third-party
`serde_json::from_str::<Vec<StationDto>>` is a parameter (`decodeDtos`,
`none` models a deserialization error). -/
def extract_stations (doc : String)
    (decodeDtos : String → Option (List StationDto)) : Except Error (List Station) :=
  match extract_station_json doc with
  | none => .error .NoStations
  | some json =>
    match decodeDtos json with
    | none => .error .Json
    | some dtos => (convertStations dtos).mapError Error.StationErr

/-! ## Client operations with a request trace -/

/-- One network request issued by an operation. -/
inductive Req where
  | get (path : String) : Req
  | post (path : String) (fields : List (String × String)) : Req
  deriving DecidableEq

/-- A fetched document: the raw text (fed to the regex extractors) together
with its parsed DOM (fed to the selector-based extractors); the pair models
`Html::parse_document` applied to the body text. -/
structure FetchedDoc where
  text : String
  dom : List Node

/-- `Client::get_line_buses` (src/lib.rs:207-223) over an explicit
environment: `fetch` models `get_document`, `postJson` models `post_json`.
Returns the result and the trace of requests issued. -/
def get_line_buses (line : String) (fetch : String → FetchedDoc)
    (postJson : String → List (String × String) → Except Error (List LineBusDto)) :
    Except Error (List LineBus) × List Req :=
  let path := "/hat/" ++ line
  let doc := fetch path
  match extract_token doc.dom with
  | none => (.error .NoToken, [.get path])
  | some token =>
    match extract_line_id doc.text with
    | none => (.error .NoLineId, [.get path])
    | some id =>
      let fields := [("hgID", id), ("__RequestVerificationToken", token)]
      match postJson "/aractekrar" fields with
      | .error e => (.error e, [.get path, .post "/aractekrar" fields])
      | .ok dtos =>
        ((convertLineBuses dtos).mapError Error.LineBusErr,
          [.get path, .post "/aractekrar" fields])

/-- `Client::get_station_buses` (src/lib.rs:225-243) over an explicit
environment. -/
def get_station_buses (station : Int) (fetch : String → FetchedDoc)
    (postJson : String → List (String × String) → Except Error (List StationBusDto)) :
    Except Error (List StationBus) × List Req :=
  let path := "/Akilli-Durak/" ++ toString station
  let doc := fetch path
  match extract_token doc.dom with
  | none => (.error .NoToken, [.get path])
  | some token =>
    let fields := [("drkID", toString station), ("__RequestVerificationToken", token)]
    match postJson "/durakTekrar" fields with
    | .error e => (.error e, [.get path, .post "/durakTekrar" fields])
    | .ok dtos =>
      (.ok (dtos.map StationBus.fromDto), [.get path, .post "/durakTekrar" fields])

/-! ## Derived definitions used by the specifications -/

/-- The station id as the conversion computes it: last `/`-segment of the
path, parsed as `i32`. -/
def stationIdOf (dto : StationDto) : Option Int :=
  ((splitSlash dto.path.data).getLast?).bind parseI32L

/-- All elements matching `input[name="__RequestVerificationToken"]`, in
document order (the spec's "such inputs"). -/
def tokenInputs (doc : List Node) : List Node :=
  (elemsList doc).filter isTokenInput

/-- An element with at least one descendant text node (the spec's "has text
content"). -/
def hasText (n : Node) : Bool := !(textsOf n).isEmpty

/-- The `Line` built from a qualifying anchor: id from the last `/`-segment
of the href, name from the first text node, trimmed. -/
def lineOfTotal (n : Node) : Line :=
  ⟨⟨((splitSlash ((Node.attr n "href").getD "").data).getLast?).getD []⟩,
    rustTrim (((textsOf n).head?).getD "")⟩

/-! ## Helper lemmas -/

lemma splitSlash_ne_nil (cs : List Char) : splitSlash cs ≠ [] := by
  induction cs with
  | nil => simp [splitSlash]
  | cons c cs ih =>
    simp only [splitSlash]
    split
    · simp
    · cases h : splitSlash cs with
      | nil => simp
      | cons p ps => simp

lemma splitSlash_getLast?_isSome (cs : List Char) :
    ∃ sg, (splitSlash cs).getLast? = some sg := by
  cases h : (splitSlash cs).getLast? with
  | none => exact absurd (List.getLast?_eq_none_iff.mp h) (splitSlash_ne_nil cs)
  | some a => exact ⟨a, rfl⟩

lemma station_error_id (dto : StationDto) (h : stationIdOf dto = none) :
    Station.tryFrom dto = .error .Id := by
  obtain ⟨sg, hsg⟩ := splitSlash_getLast?_isSome dto.path.data
  have hpi : parseI32L sg = none := by simpa [stationIdOf, hsg] using h
  simp [Station.tryFrom, hsg, hpi]

lemma station_error_coords (dto : StationDto) (i : Int) (h : stationIdOf dto = some i)
    (hc : parseF64 dto.lat = none ∨ parseF64 dto.long = none) :
    Station.tryFrom dto = .error .Coords := by
  obtain ⟨sg, hsg⟩ := splitSlash_getLast?_isSome dto.path.data
  have hpi : parseI32L sg = some i := by simpa [stationIdOf, hsg] using h
  rcases hc with h' | h'
  · simp [Station.tryFrom, hsg, hpi, h']
  · cases hla : parseF64 dto.lat with
    | none => simp [Station.tryFrom, hsg, hpi, hla]
    | some la => simp [Station.tryFrom, hsg, hpi, hla, h']

lemma station_never_noid (dto : StationDto) : Station.tryFrom dto ≠ .error .NoId := by
  obtain ⟨sg, hsg⟩ := splitSlash_getLast?_isSome dto.path.data
  simp only [Station.tryFrom, hsg]
  cases hpi : parseI32L sg with
  | none => simp
  | some i =>
    cases hla : parseF64 dto.lat with
    | none => simp
    | some la =>
      cases hlo : parseF64 dto.long with
      | none => simp
      | some lo => simp

lemma convertList_ok_iff {α β ε : Type} (f : α → Except ε β) (xs : List α) (ys : List β) :
    convertList f xs = .ok ys ↔ List.Forall₂ (fun x y => f x = .ok y) xs ys := by
  induction xs generalizing ys with
  | nil => simp [convertList, List.forall₂_nil_left_iff, eq_comm]
  | cons x xs ih =>
    cases hf : f x with
    | error e => simp [convertList, hf, List.forall₂_cons_left_iff]
    | ok y =>
      cases hc : convertList f xs with
      | error e => simp [convertList, hf, hc, List.forall₂_cons_left_iff, ← ih]
      | ok ys' =>
        simp only [convertList, hf, hc, List.forall₂_cons_left_iff, ← ih]
        constructor
        · rintro h
          cases h
          exact ⟨y, ys', rfl, rfl, rfl⟩
        · rintro ⟨b, l, hb, hl, rfl⟩
          cases hb
          cases hl
          rfl

lemma convertList_first_error {α β ε : Type} (f : α → Except ε β) (pre : List α) (d : α)
    (rest : List α) (e : ε) (hpre : ∀ x ∈ pre, ∃ y, f x = .ok y) (hd : f d = .error e) :
    convertList f (pre ++ d :: rest) = .error e := by
  induction pre with
  | nil => simp [convertList, hd]
  | cons x xs ih =>
    obtain ⟨y, hy⟩ := hpre x (by simp)
    have h' := ih (fun z hz => hpre z (by simp [hz]))
    simp [convertList, hy, h']

lemma find?_eq_head?_filter {α : Type} (p : α → Bool) (l : List α) :
    l.find? p = (l.filter p).head? := by
  induction l with
  | nil => rfl
  | cons a t ih =>
    cases h : p a with
    | true =>
      rw [List.find?_cons_of_pos _ h, List.filter_cons_of_pos h, List.head?_cons]
    | false =>
      rw [List.find?_cons_of_neg _ (by simp [h]), List.filter_cons_of_neg (by simp [h]), ih]

lemma isHatAnchor_href (n : Node) (h : isHatAnchor n = true) :
    ∃ s, Node.attr n "href" = some s := by
  cases hh : Node.attr n "href" with
  | some s => exact ⟨s, rfl⟩
  | none =>
    unfold isHatAnchor at h
    rw [hh] at h
    simp at h

lemma lineOf_eq (n : Node) (h : isHatAnchor n = true) :
    lineOf n = if hasText n then some (lineOfTotal n) else none := by
  obtain ⟨href, hhref⟩ := isHatAnchor_href n h
  obtain ⟨sg, hsg⟩ := splitSlash_getLast?_isSome href.data
  cases ht : (textsOf n).head? with
  | none =>
    have hT : hasText n = false := by
      unfold hasText
      rw [List.head?_eq_none_iff.mp ht]
      rfl
    simp [lineOf, hhref, hsg, ht, hT]
  | some t =>
    have hT : hasText n = true := by
      unfold hasText
      cases hx : textsOf n with
      | nil => rw [hx] at ht; simp at ht
      | cons a l => simp
    simp [lineOf, lineOfTotal, hhref, hsg, ht, hT]

lemma filter_filterMap_lines (l : List Node) :
    (l.filter isHatAnchor).filterMap lineOf =
      (l.filter (fun n => isHatAnchor n && hasText n)).map lineOfTotal := by
  induction l with
  | nil => rfl
  | cons n t ih =>
    cases hA : isHatAnchor n with
    | false =>
      rw [List.filter_cons_of_neg (by simp [hA]), List.filter_cons_of_neg (by simp [hA]), ih]
    | true =>
      cases hT : hasText n with
      | false =>
        rw [List.filter_cons_of_pos hA, List.filter_cons_of_neg (by simp [hA, hT]),
          List.filterMap_cons, lineOf_eq n hA, hT, ih]
        simp
      | true =>
        rw [List.filter_cons_of_pos hA, List.filter_cons_of_pos (by simp [hA, hT]),
          List.filterMap_cons, lineOf_eq n hA, hT, List.map_cons, ih]
        simp

/-! ## Claim theorems -/

/-- C3: converting the Station DTO with path "/Akilli-Duraklar-Harita/42",
name " Test Stop ", lat "39.7", long "37.0" succeeds and yields exactly
`Station` with id 42 (from the final path segment), trimmed name
"Test Stop", and coordinates 39.7 / 37.0. -/
theorem station_dto_roundtrip :
    Station.tryFrom ⟨"/Akilli-Duraklar-Harita/42", " Test Stop ", "39.7", "37.0"⟩ =
      .ok ⟨42, "Test Stop", ⟨.num (39.7 : ℚ), .num (37 : ℚ)⟩⟩ := by
  have h1 : Station.tryFrom ⟨"/Akilli-Duraklar-Harita/42", " Test Stop ", "39.7", "37.0"⟩ =
      .ok ⟨42, "Test Stop", ⟨.num (decValue 397 (-1)), .num (decValue 370 (-1))⟩⟩ := rfl
  have h2 : decValue 397 (-1) = (39.7 : ℚ) := by norm_num [decValue]
  have h3 : decValue 370 (-1) = (37 : ℚ) := by norm_num [decValue]
  rw [h1, h2, h3]

/-- C4 (amended): a Station DTO whose path's trailing segment does not parse
as an `i32` fails with the station-id error `StationError.Id`; one whose id
parses but whose lat or long does not parse as a float fails with the
coordinate error `StationError.Coords`.  (The id check runs first, so a DTO
with both defects reports the id error — see the counterexample.) -/
theorem station_conversion_named_errors (dto : StationDto) :
    (stationIdOf dto = none → Station.tryFrom dto = .error .Id) ∧
    (∀ i : Int, stationIdOf dto = some i →
      parseF64 dto.lat = none ∨ parseF64 dto.long = none →
      Station.tryFrom dto = .error .Coords) :=
  ⟨station_error_id dto, fun i hi hc => station_error_coords dto i hi hc⟩

/-- C4 witness: a DTO with a good id and a bad latitude fails with the
coordinate error. -/
theorem station_conversion_named_errors_witness :
    Station.tryFrom ⟨"/s/7", "n", "x", "1.0"⟩ = .error .Coords :=
  (station_conversion_named_errors ⟨"/s/7", "n", "x", "1.0"⟩).2 7 rfl (Or.inl rfl)

/-- C4 counterexample: the claim as stated fails — this DTO's lat "x" is not
a parseable float, yet the conversion reports the id error, not the
coordinate error, because the id parse of "abc" fails first. -/
theorem station_error_precedence_counterexample :
    parseF64 "x" = none ∧
      Station.tryFrom ⟨"abc", "n", "x", "0"⟩ = .error .Id ∧
      (Except.error StationError.Id : Except StationError Station) ≠ .error .Coords :=
  ⟨rfl, rfl, by simp⟩

/-- C10: the `StationError.NoId` case is unreachable — splitting any path on
'/' always yields a last segment, so conversion never reports it; a path
whose trailing segment is not numeric fails with `StationError.Id` instead. -/
theorem station_noid_unreachable (dto : StationDto) :
    Station.tryFrom dto ≠ .error .NoId ∧
    (stationIdOf dto = none → Station.tryFrom dto = .error .Id) :=
  ⟨station_never_noid dto, station_error_id dto⟩

/-- C10 witness: even the empty path yields the id-parse error, not `NoId`. -/
theorem station_noid_unreachable_witness :
    Station.tryFrom ⟨"", "", "", ""⟩ ≠ .error .NoId ∧
      Station.tryFrom ⟨"", "", "", ""⟩ = .error .Id :=
  ⟨(station_noid_unreachable ⟨"", "", "", ""⟩).1,
    (station_noid_unreachable ⟨"", "", "", ""⟩).2 rfl⟩

/-- C9: StationBus conversion is total (it is a plain function, not a
fallible one): the license plate is trimmed and the arrival time is exactly
the DTO's whole-second count. -/
theorem station_bus_conversion_total (dto : StationBusDto) :
    (StationBus.fromDto dto).license_plate = rustTrim dto.license_plate ∧
    (StationBus.fromDto dto).arrive_time = dto.arrive_time_secs :=
  ⟨rfl, rfl⟩

/-- C5: batch conversion is all-or-nothing for both station DTOs and
line-bus DTOs: success is exactly elementwise success in order, and a batch
with a failing element (all earlier ones succeeding) returns that first
failure's error. -/
theorem batch_conversion_all_or_nothing :
    (∀ (dtos : List StationDto) (vs : List Station),
        convertStations dtos = .ok vs ↔
          List.Forall₂ (fun d v => Station.tryFrom d = .ok v) dtos vs) ∧
    (∀ (pre : List StationDto) (d : StationDto) (rest : List StationDto) (e : StationError),
        (∀ x ∈ pre, ∃ v, Station.tryFrom x = .ok v) → Station.tryFrom d = .error e →
          convertStations (pre ++ d :: rest) = .error e) ∧
    (∀ (dtos : List LineBusDto) (vs : List LineBus),
        convertLineBuses dtos = .ok vs ↔
          List.Forall₂ (fun d v => LineBus.tryFrom d = .ok v) dtos vs) ∧
    (∀ (pre : List LineBusDto) (d : LineBusDto) (rest : List LineBusDto) (e : LineBusError),
        (∀ x ∈ pre, ∃ v, LineBus.tryFrom x = .ok v) → LineBus.tryFrom d = .error e →
          convertLineBuses (pre ++ d :: rest) = .error e) :=
  ⟨fun dtos vs => convertList_ok_iff Station.tryFrom dtos vs,
    fun pre d rest e h1 h2 => convertList_first_error Station.tryFrom pre d rest e h1 h2,
    fun dtos vs => convertList_ok_iff LineBus.tryFrom dtos vs,
    fun pre d rest e h1 h2 => convertList_first_error LineBus.tryFrom pre d rest e h1 h2⟩

/-- C5 witness: a good station DTO followed by one with a non-numeric id
fails the whole batch with that element's error. -/
theorem batch_conversion_all_or_nothing_witness :
    convertStations [⟨"/d/1", "A", "5", "6"⟩, ⟨"/d/x", "B", "5", "6"⟩] = .error .Id := by
  have h := batch_conversion_all_or_nothing.2.1 [⟨"/d/1", "A", "5", "6"⟩]
    ⟨"/d/x", "B", "5", "6"⟩ [] .Id ?_ ?_
  · exact h
  · intro x hx
    rw [List.mem_singleton] at hx
    subst hx
    exact ⟨⟨1, "A", ⟨.num (decValue 5 0), .num (decValue 6 0)⟩⟩, rfl⟩
  · rfl

/-- C6: the Token Extractor returns the `value` attribute of the first
`input[name="__RequestVerificationToken"]` element in document order; with
no such element it returns `none` (also when the first such element has no
`value` attribute); with exactly one such element carrying a value it
returns exactly that value. -/
theorem extract_token_first_input (doc : List Node) :
    (tokenInputs doc = [] → extract_token doc = none) ∧
    (∀ e rest, tokenInputs doc = e :: rest → extract_token doc = Node.attr e "value") ∧
    (∀ e v, tokenInputs doc = [e] → Node.attr e "value" = some v →
      extract_token doc = some v) := by
  have hk : extract_token doc = (tokenInputs doc).head?.bind (fun e => Node.attr e "value") := by
    unfold extract_token tokenInputs
    rw [find?_eq_head?_filter]
  refine ⟨fun h => ?_, fun e rest h => ?_, fun e v h hv => ?_⟩
  · rw [hk, h]; rfl
  · rw [hk, h]; rfl
  · rw [hk, h]; simp [hv]

/-- C6 witness: a document with exactly one token input yields its value. -/
theorem extract_token_first_input_witness :
    extract_token
        [Node.elem "input" [("name", "__RequestVerificationToken"), ("value", "tok")] []] =
      some "tok" :=
  (extract_token_first_input _).2.2
    (Node.elem "input" [("name", "__RequestVerificationToken"), ("value", "tok")] []) "tok"
    rfl rfl

/-- C8: the Line-List Extractor returns one `Line` per anchor whose href
begins with "/hat/" and that has text content, in document order, with id
the final path segment of the href and name the trimmed first text; anchors
without a matching href or without text are skipped, and extraction is total.
In particular two valid anchors and one without href yield those two lines
in order. -/
theorem extract_lines_skips_malformed :
    (∀ doc : List Node,
        extract_lines doc =
          ((elemsList doc).filter (fun n => isHatAnchor n && hasText n)).map lineOfTotal) ∧
    extract_lines
        [Node.elem "a" [("href", "/hat/1")] [Node.text "Line One"],
          Node.elem "a" [] [Node.text "X"],
          Node.elem "a" [("href", "/hat/2")] [Node.text " Two "]] =
      [⟨"1", "Line One"⟩, ⟨"2", "Two"⟩] :=
  ⟨fun doc => filter_filterMap_lines (elemsList doc), rfl⟩

/-- C2: when the fetched line document yields no anti-forgery token,
`get_line_buses` fails with `NoToken`; when it yields a token but no inline
line id, it fails with `NoLineId`; when the fetched station document yields
no token, `get_station_buses` fails with `NoToken`.  In every such case the
request trace contains no POST. -/
theorem live_bus_requires_token (line : String) (station : Int)
    (fetch : String → FetchedDoc)
    (postL : String → List (String × String) → Except Error (List LineBusDto))
    (postS : String → List (String × String) → Except Error (List StationBusDto)) :
    (extract_token (fetch ("/hat/" ++ line)).dom = none →
      (get_line_buses line fetch postL).1 = .error .NoToken ∧
        ∀ p fs, Req.post p fs ∉ (get_line_buses line fetch postL).2) ∧
    (∀ tok, extract_token (fetch ("/hat/" ++ line)).dom = some tok →
      extract_line_id (fetch ("/hat/" ++ line)).text = none →
      (get_line_buses line fetch postL).1 = .error .NoLineId ∧
        ∀ p fs, Req.post p fs ∉ (get_line_buses line fetch postL).2) ∧
    (extract_token (fetch ("/Akilli-Durak/" ++ toString station)).dom = none →
      (get_station_buses station fetch postS).1 = .error .NoToken ∧
        ∀ p fs, Req.post p fs ∉ (get_station_buses station fetch postS).2) := by
  refine ⟨fun h => ?_, fun tok htok hid => ?_, fun h => ?_⟩
  · have hres : get_line_buses line fetch postL =
        (.error .NoToken, [.get ("/hat/" ++ line)]) := by
      simp [get_line_buses, h]
    rw [hres]
    exact ⟨rfl, fun p fs => by simp⟩
  · have hres : get_line_buses line fetch postL =
        (.error .NoLineId, [.get ("/hat/" ++ line)]) := by
      simp [get_line_buses, htok, hid]
    rw [hres]
    exact ⟨rfl, fun p fs => by simp⟩
  · have hres : get_station_buses station fetch postS =
        (.error .NoToken, [.get ("/Akilli-Durak/" ++ toString station)]) := by
      simp [get_station_buses, h]
    rw [hres]
    exact ⟨rfl, fun p fs => by simp⟩

/-- C2 witness: with an empty fetched document, `get_line_buses` fails with
`NoToken` and issues no POST. -/
theorem live_bus_requires_token_witness :
    (get_line_buses "1" (fun _ => ⟨"", []⟩) (fun _ _ => .ok [])).1 = .error .NoToken ∧
      Req.post "/aractekrar" [] ∉
        (get_line_buses "1" (fun _ => ⟨"", []⟩) (fun _ _ => .ok [])).2 := by
  have h := (live_bus_requires_token "1" 0 (fun _ => ⟨"", []⟩) (fun _ _ => .ok [])
    (fun _ _ => .ok [])).1 rfl
  exact ⟨h.1, h.2 "/aractekrar" []⟩

/-! ## Regex-scanner lemmas -/



lemma dropLit_some (p : List Char) : ∀ {cs r : List Char},
    dropLit p cs = some r → cs = p ++ r := by
  induction p with
  | nil =>
    intro cs r h
    simp only [dropLit, Option.some.injEq] at h
    rw [h]
    rfl
  | cons x ps ih =>
    intro cs r h
    cases cs with
    | nil => cases h
    | cons c cs' =>
      simp only [dropLit] at h
      split at h
      · next heq =>
        rw [List.cons_append, heq]
        exact congrArg _ (ih h)
      · cases h

lemma dropLit_self (p : List Char) : ∀ r : List Char, dropLit p (p ++ r) = some r := by
  induction p with
  | nil => intro r; rfl
  | cons c ps ih =>
    intro r
    show (if c = c then dropLit ps (ps ++ r) else none) = some r
    rw [if_pos rfl, ih]

lemma mem_takeWhile_pred {p : Char → Bool} : ∀ {l : List Char} {c : Char},
    c ∈ l.takeWhile p → p c = true := by
  intro l
  induction l with
  | nil => intro c h; cases h
  | cons a t ih =>
    intro c h
    rw [List.takeWhile_cons] at h
    by_cases hp : p a = true
    · rw [if_pos hp] at h
      rcases List.mem_cons.mp h with rfl | h'
      · exact hp
      · exact ih h'
    · rw [if_neg hp] at h
      cases h

lemma takeWhile_append_all {p : Char → Bool} {l₁ : List Char} (l₂ : List Char)
    (h : ∀ c ∈ l₁, p c = true) :
    (l₁ ++ l₂).takeWhile p = l₁ ++ l₂.takeWhile p := by
  induction l₁ with
  | nil => rfl
  | cons a t ih =>
    rw [List.cons_append, List.takeWhile_cons, if_pos (h a (by simp)), List.cons_append,
      ih (fun c hc => h c (by simp [hc]))]

lemma dropWhile_append_all {p : Char → Bool} {l₁ : List Char} (l₂ : List Char)
    (h : ∀ c ∈ l₁, p c = true) :
    (l₁ ++ l₂).dropWhile p = l₂.dropWhile p := by
  induction l₁ with
  | nil => rfl
  | cons a t ih =>
    rw [List.cons_append, List.dropWhile_cons_of_pos (h a (by simp)),
      ih (fun c hc => h c (by simp [hc]))]

lemma wsPlus_some {cs r : List Char} (h : wsPlus cs = some r) :
    ∃ w, w ≠ [] ∧ (∀ c ∈ w, rsWs c = true) ∧ cs = w ++ r := by
  cases cs with
  | nil => cases h
  | cons c rest =>
    simp only [wsPlus] at h
    split at h
    · next hws =>
      have hr : r = rest.dropWhile rsWs := by
        injection h with h'
        exact h'.symm
      refine ⟨c :: rest.takeWhile rsWs, by simp, ?_, ?_⟩
      · intro x hx
        rcases List.mem_cons.mp hx with rfl | hx'
        · exact hws
        · exact mem_takeWhile_pred hx'
      · rw [hr, List.cons_append, List.takeWhile_append_dropWhile]
    · cases h





lemma dropWhile_nil_all {p : Char → Bool} : ∀ {l : List Char}, l.dropWhile p = [] →
    ∀ c ∈ l, p c = true := by
  intro l
  induction l with
  | nil => intro _ c hc; cases hc
  | cons a t ih =>
    intro h c hc
    rw [List.dropWhile_cons] at h
    split at h
    · next hpa =>
      rcases List.mem_cons.mp hc with rfl | hc'
      · exact hpa
      · exact ih h c hc'
    · cases h

lemma dropWhile_head_false (p : Char → Bool) : ∀ {l : List Char} {c : Char} {cs : List Char},
    l.dropWhile p = c :: cs → p c = false := by
  intro l
  induction l with
  | nil => intro c cs h; cases h
  | cons a t ih =>
    intro c cs h
    rw [List.dropWhile_cons] at h
    split at h
    · exact ih h
    · next hpa =>
      cases h
      simpa using hpa

lemma wsPlus_all (w : List Char) (x : Char) (r : List Char) (h0 : w ≠ [])
    (hw : ∀ c ∈ w, rsWs c = true) (hx : rsWs x = false) :
    wsPlus (w ++ x :: r) = some (x :: r) := by
  cases w with
  | nil => exact absurd rfl h0
  | cons a w' =>
    show (if rsWs a then some ((w' ++ x :: r).dropWhile rsWs) else none) = some (x :: r)
    rw [if_pos (hw a (List.mem_cons_self _ _)),
      dropWhile_append_all _ (fun c hc => hw c (List.mem_cons_of_mem _ hc)),
      List.dropWhile_cons_of_neg (by simp [hx])]

lemma isNd_not_ws {c : Char} (h : isNd c = true) : rsWs c = false := by
  simp only [isNd, Bool.or_eq_true, Bool.and_eq_true, decide_eq_true_eq] at h
  simp only [rsWs]
  simp only [Bool.or_eq_false_iff, Bool.and_eq_false_iff, decide_eq_false_iff_not]
  omega

lemma findDuraks_cons (c : Char) (cs : List Char) :
    findDuraks (c :: cs) =
      match matchDuraksAt (c :: cs) with
      | some r => some r
      | none => findDuraks cs := rfl

lemma findHg_cons (c : Char) (cs : List Char) :
    findHg (c :: cs) =
      match matchHgAt (c :: cs) with
      | some r => some r
      | none => findHg cs := rfl

lemma findDuraks_skip (l₂ : List Char) : ∀ l₁ : List Char,
    (∀ t, t ≠ [] → (∃ s, s ++ t = l₁) → matchDuraksAt (t ++ l₂) = none) →
    findDuraks (l₁ ++ l₂) = findDuraks l₂ := by
  intro l₁
  induction l₁ with
  | nil => intro _; rfl
  | cons a t ih =>
    intro H
    have h0 : matchDuraksAt ((a :: t) ++ l₂) = none := H (a :: t) (by simp) ⟨[], rfl⟩
    rw [List.cons_append, findDuraks_cons, ← List.cons_append, h0]
    refine ih (fun t' ht' hex => ?_)
    obtain ⟨s, hs⟩ := hex
    exact H t' ht' ⟨a :: s, by rw [List.cons_append, hs]⟩

lemma findHg_skip (l₂ : List Char) : ∀ l₁ : List Char,
    (∀ t, t ≠ [] → (∃ s, s ++ t = l₁) → matchHgAt (t ++ l₂) = none) →
    findHg (l₁ ++ l₂) = findHg l₂ := by
  intro l₁
  induction l₁ with
  | nil => intro _; rfl
  | cons a t ih =>
    intro H
    have h0 : matchHgAt ((a :: t) ++ l₂) = none := H (a :: t) (by simp) ⟨[], rfl⟩
    rw [List.cons_append, findHg_cons, ← List.cons_append, h0]
    refine ih (fun t' ht' hex => ?_)
    obtain ⟨s, hs⟩ := hex
    exact H t' ht' ⟨a :: s, by rw [List.cons_append, hs]⟩



lemma greedyBody_eval (body post : List Char)
    (hb : ∀ c ∈ body, (c != '\n') = true)
    (hp : ∀ c ∈ post.takeWhile (fun c => c != '\n'), (c != ']') = true) :
    greedyBody (body ++ ']' :: post) = some (body ++ [']']) := by
  have h1 : (body ++ ']' :: post).takeWhile (fun c => c != '\n')
      = body ++ ']' :: post.takeWhile (fun c => c != '\n') := by
    rw [takeWhile_append_all _ hb, List.takeWhile_cons, if_pos (by decide)]
  have h2 : (body ++ ']' :: post.takeWhile (fun c => c != '\n')).reverse
      = (post.takeWhile (fun c => c != '\n')).reverse ++ ']' :: body.reverse := by
    simp
  simp only [greedyBody, h1, h2]
  rw [dropWhile_append_all _ (fun c hc => hp c (List.mem_reverse.mp hc)),
    List.dropWhile_cons_of_neg (by decide)]
  simp

lemma matchDuraks_at_vd (rest : List Char) :
    matchDuraksAt ("var duraks = [".data ++ rest) =
      match greedyBody rest with
      | none => none
      | some b => some ('[' :: b) := rfl

lemma matchHg_at_s (rest : List Char) :
    matchHgAt ("hgID: ".data ++ rest) = digitsPlus (rest.dropWhile rsWs) := rfl


lemma greedyBody_isSome (mid rest : List Char) (hmid : ∀ c ∈ mid, c ≠ '\n') :
    ∃ b, greedyBody (mid ++ ']' :: rest) = some b := by
  have h1 : (mid ++ ']' :: rest).takeWhile (fun c => c != '\n')
      = mid ++ ']' :: rest.takeWhile (fun c => c != '\n') := by
    rw [takeWhile_append_all _ (fun c hc => bne_iff_ne.mpr (hmid c hc)), List.takeWhile_cons,
      if_pos (by decide)]
  simp only [greedyBody, h1]
  have hmem : (']' : Char) ∈ (mid ++ ']' :: rest.takeWhile (fun c => c != '\n')).reverse := by
    simp
  cases hr : (mid ++ ']' :: rest.takeWhile (fun c => c != '\n')).reverse.dropWhile
      (fun c => c != ']') with
  | nil =>
    have := dropWhile_nil_all hr ']' hmem
    simp at this
  | cons y ys =>
    exact ⟨(y :: ys).reverse, rfl⟩

lemma greedyBody_some {cs b : List Char} (h : greedyBody cs = some b) :
    b ≠ [] ∧ b.getLast? = some ']' ∧ (∀ c ∈ b, c ≠ '\n') ∧ ∃ tail, cs = b ++ tail := by
  simp only [greedyBody] at h
  split at h
  · cases h
  · next hne =>
    have hb : b
        = ((cs.takeWhile (fun c => c != '\n')).reverse.dropWhile (fun c => c != ']')).reverse :=
      (Option.some_inj.mp h).symm
    have hrne : (cs.takeWhile (fun c => c != '\n')).reverse.dropWhile (fun c => c != ']') ≠ [] := by
      intro hc
      exact hne (by rw [hc]; rfl)
    refine ⟨?_, ?_, ?_, ?_⟩
    · rw [hb, ne_eq, List.reverse_eq_nil_iff]
      exact hrne
    · rw [hb, List.getLast?_eq_head?_reverse, List.reverse_reverse]
      obtain ⟨y, ys, hys⟩ := List.exists_cons_of_ne_nil hrne
      have hy := dropWhile_head_false (fun c => c != ']') hys
      have hy' : y = ']' := by simpa using hy
      rw [hys, List.head?_cons, hy']
    · intro c hc
      rw [hb, List.mem_reverse] at hc
      have hc2 : c ∈ (cs.takeWhile (fun c => c != '\n')).reverse :=
        List.Sublist.mem hc (List.dropWhile_sublist _)
      rw [List.mem_reverse] at hc2
      have h3 := mem_takeWhile_pred hc2
      exact bne_iff_ne.mp h3
    · refine ⟨((cs.takeWhile (fun c => c != '\n')).reverse.takeWhile (fun c => c != ']')).reverse
          ++ cs.dropWhile (fun c => c != '\n'), ?_⟩
      have e1 : cs.takeWhile (fun c => c != '\n')
          = b ++ ((cs.takeWhile (fun c => c != '\n')).reverse.takeWhile
              (fun c => c != ']')).reverse := by
        rw [hb]
        calc cs.takeWhile (fun c => c != '\n')
            = (cs.takeWhile (fun c => c != '\n')).reverse.reverse := (List.reverse_reverse _).symm
          _ = ((cs.takeWhile (fun c => c != '\n')).reverse.takeWhile (fun c => c != ']')
                ++ (cs.takeWhile (fun c => c != '\n')).reverse.dropWhile
                  (fun c => c != ']')).reverse := by
              rw [List.takeWhile_append_dropWhile]
          _ = ((cs.takeWhile (fun c => c != '\n')).reverse.dropWhile (fun c => c != ']')).reverse
                ++ ((cs.takeWhile (fun c => c != '\n')).reverse.takeWhile
                  (fun c => c != ']')).reverse := by
              rw [List.reverse_append]
      calc cs = cs.takeWhile (fun c => c != '\n') ++ cs.dropWhile (fun c => c != '\n') :=
            (List.takeWhile_append_dropWhile _ _).symm
        _ = (b ++ ((cs.takeWhile (fun c => c != '\n')).reverse.takeWhile
              (fun c => c != ']')).reverse) ++ cs.dropWhile (fun c => c != '\n') := by
            rw [← e1]
        _ = b ++ (((cs.takeWhile (fun c => c != '\n')).reverse.takeWhile
              (fun c => c != ']')).reverse ++ cs.dropWhile (fun c => c != '\n')) :=
            List.append_assoc _ _ _

lemma matchDuraksAt_assignment (w1 w2 w3 X : List Char) (h0 : w1 ≠ [])
    (hw1 : ∀ c ∈ w1, rsWs c = true) (hw2 : ∀ c ∈ w2, rsWs c = true)
    (hw3 : ∀ c ∈ w3, rsWs c = true) :
    matchDuraksAt ('v' :: 'a' :: 'r' :: (w1 ++ (['d', 'u', 'r', 'a', 'k', 's'] ++
        (w2 ++ ('=' :: (w3 ++ ('[' :: X))))))) =
      match greedyBody X with
      | none => none
      | some b => some ('[' :: b) := by
  show (match wsPlus (w1 ++ (['d', 'u', 'r', 'a', 'k', 's'] ++
        (w2 ++ ('=' :: (w3 ++ ('[' :: X)))))) with
      | none => none
      | some r2 => duraksTail r2) = _
  rw [show (['d', 'u', 'r', 'a', 'k', 's'] : List Char) ++ (w2 ++ ('=' :: (w3 ++ ('[' :: X))))
        = 'd' :: (['u', 'r', 'a', 'k', 's'] ++ (w2 ++ ('=' :: (w3 ++ ('[' :: X))))) from rfl,
    wsPlus_all w1 'd' (['u', 'r', 'a', 'k', 's'] ++ (w2 ++ ('=' :: (w3 ++ ('[' :: X)))))
      h0 hw1 (by decide)]
  show duraksTail (['d', 'u', 'r', 'a', 'k', 's'] ++ (w2 ++ ('=' :: (w3 ++ ('[' :: X))))) = _
  unfold duraksTail
  rw [dropLit_self]
  show duraksEq (w2 ++ ('=' :: (w3 ++ ('[' :: X)))) = _
  unfold duraksEq
  rw [show dropLit ['='] ((w2 ++ ('=' :: (w3 ++ ('[' :: X)))).dropWhile rsWs)
        = some (w3 ++ ('[' :: X)) from by
      rw [dropWhile_append_all _ hw2, List.dropWhile_cons_of_neg (by decide)]
      rfl]
  show (match dropLit ['['] ((w3 ++ ('[' :: X)).dropWhile rsWs) with
      | none => none
      | some r7 =>
        match greedyBody r7 with
        | none => none
        | some b => some ('[' :: b)) = _
  rw [show dropLit ['['] ((w3 ++ ('[' :: X)).dropWhile rsWs) = some X from by
      rw [dropWhile_append_all _ hw3, List.dropWhile_cons_of_neg (by decide)]
      rfl]

lemma matchHgAt_assignment (w1 Y : List Char) (hw1 : ∀ c ∈ w1, rsWs c = true) :
    matchHgAt (['h', 'g', 'I', 'D'] ++ (w1 ++ (':' :: Y))) = digitsPlus (Y.dropWhile rsWs) := by
  unfold matchHgAt
  rw [dropLit_self]
  show (match dropLit [':'] ((w1 ++ (':' :: Y)).dropWhile rsWs) with
      | none => none
      | some r3 => digitsPlus (r3.dropWhile rsWs)) = digitsPlus (Y.dropWhile rsWs)
  rw [show dropLit [':'] ((w1 ++ (':' :: Y)).dropWhile rsWs) = some Y from by
      rw [dropWhile_append_all _ hw1, List.dropWhile_cons_of_neg (by decide)]
      rfl]

lemma digitsPlus_digits (d : Char) (dtail post : List Char)
    (hd : isNd d = true) (hall : ∀ c ∈ dtail, isNd c = true)
    (hpost : ∀ c, post.head? = some c → isNd c = false) :
    digitsPlus ((d :: dtail) ++ post) = some (d :: dtail) := by
  have hpt : post.takeWhile isNd = [] := by
    cases post with
    | nil => rfl
    | cons p ps =>
      have := hpost p rfl
      rw [List.takeWhile_cons]
      simp [this]
  show (if isNd d then some (d :: (dtail ++ post).takeWhile isNd) else none)
      = some (d :: dtail)
  rw [if_pos hd, takeWhile_append_all _ hall, hpt, List.append_nil]

lemma digitsPlus_some {cs cap : List Char} (h : digitsPlus cs = some cap) :
    ∃ tail, cap ≠ [] ∧ (∀ c ∈ cap, isNd c = true) ∧ cs = cap ++ tail := by
  cases cs with
  | nil => cases h
  | cons c r =>
    simp only [digitsPlus] at h
    split at h
    · next hc =>
      have hcap : cap = c :: r.takeWhile isNd := (Option.some_inj.mp h).symm
      refine ⟨r.dropWhile isNd, by simp [hcap], ?_, ?_⟩
      · intro x hx
        rw [hcap] at hx
        rcases List.mem_cons.mp hx with rfl | hx'
        · exact hc
        · exact mem_takeWhile_pred hx'
      · rw [hcap, List.cons_append, List.takeWhile_append_dropWhile]
    · cases h

lemma dropWhile_decomp (p : Char → Bool) (l : List Char) :
    ∃ w, (∀ c ∈ w, p c = true) ∧ l = w ++ l.dropWhile p :=
  ⟨l.takeWhile p, fun _ hc => mem_takeWhile_pred hc, (List.takeWhile_append_dropWhile p l).symm⟩

lemma matchHg_full_shape {t cap : List Char} (h : matchHgAt t = some cap) :
    ∃ w1 w2 j, (∀ c ∈ w1, rsWs c = true) ∧ (∀ c ∈ w2, rsWs c = true) ∧
      cap ≠ [] ∧ (∀ c ∈ cap, isNd c = true) ∧
      t = ['h', 'g', 'I', 'D'] ++ (w1 ++ (':' :: (w2 ++ (cap ++ j)))) := by
  unfold matchHgAt at h
  split at h
  · cases h
  · next r1 h1 =>
    split at h
    · cases h
    · next r3 h3 =>
      obtain ⟨j, hne, hdig, hj⟩ := digitsPlus_some h
      obtain ⟨w1, hw1, hw1e⟩ := dropWhile_decomp rsWs r1
      obtain ⟨w2, hw2, hw2e⟩ := dropWhile_decomp rsWs r3
      refine ⟨w1, w2, j, hw1, hw2, hne, hdig, ?_⟩
      rw [dropLit_some _ h1, hw1e, dropLit_some _ h3, hw2e, hj]
      simp

lemma matchDuraks_full_shape {t cap : List Char} (h : matchDuraksAt t = some cap) :
    ∃ w1 w2 w3 b j, w1 ≠ [] ∧ (∀ c ∈ w1, rsWs c = true) ∧ (∀ c ∈ w2, rsWs c = true) ∧
      (∀ c ∈ w3, rsWs c = true) ∧ cap = '[' :: b ∧ b ≠ [] ∧ b.getLast? = some ']' ∧
      (∀ c ∈ b, c ≠ '\n') ∧
      t = 'v' :: 'a' :: 'r' :: (w1 ++ (['d', 'u', 'r', 'a', 'k', 's'] ++
        (w2 ++ ('=' :: (w3 ++ ('[' :: (b ++ j))))))) := by
  unfold matchDuraksAt at h
  split at h
  · cases h
  · next r1 h1 =>
    split at h
    · cases h
    · next r2 h2 =>
      unfold duraksTail at h
      split at h
      · cases h
      · next r3 h3 =>
        unfold duraksEq at h
        split at h
        · cases h
        · next r5 h4 =>
          split at h
          · cases h
          · next r7 h5 =>
            split at h
            · cases h
            · next b h6 =>
              have hcap : cap = '[' :: b := (Option.some_inj.mp h).symm
              obtain ⟨w1, hw10, hw1, hw1e⟩ := wsPlus_some h2
              obtain ⟨w2, hw2, hw2e⟩ := dropWhile_decomp rsWs r3
              obtain ⟨w3, hw3, hw3e⟩ := dropWhile_decomp rsWs r5
              obtain ⟨hbne, hlast, hnl, tail, htail⟩ := greedyBody_some h6
              refine ⟨w1, w2, w3, b, tail, hw10, hw1, hw2, hw3, hcap, hbne, hlast, hnl, ?_⟩
              rw [dropLit_some _ h1, hw1e, dropLit_some _ h3, hw2e, dropLit_some _ h4,
                hw3e, dropLit_some _ h5, htail]
              simp

lemma findHg_some_assignment : ∀ {l cap : List Char}, findHg l = some cap →
    ∃ p w1 w2 j, (∀ c ∈ w1, rsWs c = true) ∧ (∀ c ∈ w2, rsWs c = true) ∧
      cap ≠ [] ∧ (∀ c ∈ cap, isNd c = true) ∧
      l = p ++ (['h', 'g', 'I', 'D'] ++ (w1 ++ (':' :: (w2 ++ (cap ++ j))))) := by
  intro l
  induction l with
  | nil => intro cap h; cases h
  | cons c cs ih =>
    intro cap h
    rw [findHg_cons] at h
    cases hm : matchHgAt (c :: cs) with
    | some m =>
      rw [hm] at h
      have hcap : m = cap := Option.some_inj.mp h
      obtain ⟨w1, w2, j, a, b, d, e, f⟩ := matchHg_full_shape (hcap ▸ hm)
      exact ⟨[], w1, w2, j, a, b, d, e, by rw [f]; rfl⟩
    | none =>
      rw [hm] at h
      obtain ⟨p, w1, w2, j, a, b, d, e, f⟩ := ih h
      exact ⟨c :: p, w1, w2, j, a, b, d, e, by rw [List.cons_append, f]⟩


lemma findDuraks_isSome_append (l₂ : List Char) (hm : ∃ cap, matchDuraksAt l₂ = some cap) :
    ∀ l₁ : List Char, ∃ r, findDuraks (l₁ ++ l₂) = some r := by
  obtain ⟨cap, hcap⟩ := hm
  obtain ⟨c, cs, rfl⟩ : ∃ c cs, l₂ = c :: cs := by
    cases l₂ with
    | nil =>
      rw [show matchDuraksAt ([] : List Char) = none from rfl] at hcap
      cases hcap
    | cons c cs => exact ⟨c, cs, rfl⟩
  intro l₁
  induction l₁ with
  | nil => exact ⟨cap, by rw [List.nil_append, findDuraks_cons, hcap]⟩
  | cons a t ih =>
    obtain ⟨r, hr⟩ := ih
    cases hma : matchDuraksAt ((a :: t) ++ (c :: cs)) with
    | some m =>
      refine ⟨m, ?_⟩
      rw [List.cons_append, findDuraks_cons, ← List.cons_append, hma]
    | none =>
      refine ⟨r, ?_⟩
      rw [List.cons_append, findDuraks_cons, ← List.cons_append, hma]
      exact hr

lemma findHg_isSome_append (l₂ : List Char) (hm : ∃ cap, matchHgAt l₂ = some cap) :
    ∀ l₁ : List Char, ∃ r, findHg (l₁ ++ l₂) = some r := by
  obtain ⟨cap, hcap⟩ := hm
  obtain ⟨c, cs, rfl⟩ : ∃ c cs, l₂ = c :: cs := by
    cases l₂ with
    | nil =>
      rw [show matchHgAt ([] : List Char) = none from rfl] at hcap
      cases hcap
    | cons c cs => exact ⟨c, cs, rfl⟩
  intro l₁
  induction l₁ with
  | nil => exact ⟨cap, by rw [List.nil_append, findHg_cons, hcap]⟩
  | cons a t ih =>
    obtain ⟨r, hr⟩ := ih
    cases hma : matchHgAt ((a :: t) ++ (c :: cs)) with
    | some m =>
      refine ⟨m, ?_⟩
      rw [List.cons_append, findHg_cons, ← List.cons_append, hma]
    | none =>
      refine ⟨r, ?_⟩
      rw [List.cons_append, findHg_cons, ← List.cons_append, hma]
      exact hr

lemma findDuraks_some_assignment : ∀ {l cap : List Char}, findDuraks l = some cap →
    ∃ p w1 w2 w3 b j, w1 ≠ [] ∧ (∀ c ∈ w1, rsWs c = true) ∧ (∀ c ∈ w2, rsWs c = true) ∧
      (∀ c ∈ w3, rsWs c = true) ∧ cap = '[' :: b ∧ b ≠ [] ∧ b.getLast? = some ']' ∧
      (∀ c ∈ b, c ≠ '\n') ∧
      l = p ++ ('v' :: 'a' :: 'r' :: (w1 ++ (['d', 'u', 'r', 'a', 'k', 's'] ++
        (w2 ++ ('=' :: (w3 ++ ('[' :: (b ++ j)))))))) := by
  intro l
  induction l with
  | nil => intro cap h; cases h
  | cons c cs ih =>
    intro cap h
    rw [findDuraks_cons] at h
    cases hm : matchDuraksAt (c :: cs) with
    | some m =>
      rw [hm] at h
      have hcap : m = cap := Option.some_inj.mp h
      obtain ⟨w1, w2, w3, b, j, h1, h2, h3, h4, h5, h6, h7, h8, h9⟩ :=
        matchDuraks_full_shape (hcap ▸ hm)
      exact ⟨[], w1, w2, w3, b, j, h1, h2, h3, h4, h5, h6, h7, h8, by rw [h9]; rfl⟩
    | none =>
      rw [hm] at h
      obtain ⟨p, w1, w2, w3, b, j, h1, h2, h3, h4, h5, h6, h7, h8, h9⟩ := ih h
      exact ⟨c :: p, w1, w2, w3, b, j, h1, h2, h3, h4, h5, h6, h7, h8,
        by rw [List.cons_append, h9]⟩

/-- C1 (amended): greedy capture of the first duraks assignment.  When the
document is `pre ++ "var duraks = [" ++ body ++ "]" ++ post`, the assignment
pattern matches nowhere inside `pre` (so this is the first such assignment),
the array literal lies on a single line, and the part of `post` on the same
line as the array holds no `']'`, the extractor returns exactly the
bracketed array substring, unmodified.  Moreover extraction succeeds on
every document containing a single-line bracketed duraks assignment, and
every returned value is verbatim the capture — from its `'['` to the last
`']'` on that line — of an actual `var\s+duraks\s*=\s*[...]` assignment
present in the document; contrapositively, a document containing no such
assignment yields `none`.  (Without the single-line / no-`']'` conditions
the greedy `.*` grabs up to the last `']'` of the line — see the
counterexample.) -/
theorem extract_station_json_first_assignment :
    (∀ pre body post : String,
        (∀ i, i < pre.data.length →
          matchDuraksAt (pre.data.drop i ++
            ("var duraks = [".data ++ (body.data ++ (']' :: post.data)))) = none) →
        (∀ c ∈ body.data, c ≠ '\n') →
        (∀ c ∈ post.data.takeWhile (fun c => c != '\n'), c ≠ ']') →
        extract_station_json (pre ++ "var duraks = [" ++ body ++ "]" ++ post) =
          some ("[" ++ body ++ "]")) ∧
    (∀ (p w1 w2 w3 mid rest : List Char) (doc : String),
        doc.data = p ++ ('v' :: 'a' :: 'r' :: (w1 ++ (['d', 'u', 'r', 'a', 'k', 's'] ++
          (w2 ++ ('=' :: (w3 ++ ('[' :: (mid ++ (']' :: rest))))))))) →
        w1 ≠ [] → (∀ c ∈ w1, rsWs c = true) → (∀ c ∈ w2, rsWs c = true) →
        (∀ c ∈ w3, rsWs c = true) → (∀ c ∈ mid, c ≠ '\n') →
        ∃ s, extract_station_json doc = some s) ∧
    (∀ doc s : String, extract_station_json doc = some s →
        ∃ p w1 w2 w3 b j, w1 ≠ [] ∧ (∀ c ∈ w1, rsWs c = true) ∧
          (∀ c ∈ w2, rsWs c = true) ∧ (∀ c ∈ w3, rsWs c = true) ∧
          s.data = '[' :: b ∧ b ≠ [] ∧ b.getLast? = some ']' ∧ (∀ c ∈ b, c ≠ '\n') ∧
          doc.data = p ++ ('v' :: 'a' :: 'r' :: (w1 ++ (['d', 'u', 'r', 'a', 'k', 's'] ++
            (w2 ++ ('=' :: (w3 ++ ('[' :: (b ++ j))))))))) := by
  refine ⟨?_, ?_, ?_⟩
  · intro pre body post hidx hbody hpost
    unfold extract_station_json
    have hbr : ("]" : String).data = [']'] := rfl
    have hdata : (pre ++ "var duraks = [" ++ body ++ "]" ++ post).data
        = pre.data ++ ("var duraks = [".data ++ (body.data ++ (']' :: post.data))) := by
      simp [hbr]
    rw [hdata]
    have hskip : findDuraks
          (pre.data ++ ("var duraks = [".data ++ (body.data ++ (']' :: post.data))))
        = findDuraks ("var duraks = [".data ++ (body.data ++ (']' :: post.data))) := by
      apply findDuraks_skip
      intro t ht hsuf
      obtain ⟨s0, hs0⟩ := hsuf
      have hto : t = pre.data.drop s0.length := by
        rw [← hs0, List.drop_left]
      have hlen : s0.length < pre.data.length := by
        have hl := congrArg List.length hs0
        rw [List.length_append] at hl
        have ht' := List.length_pos.mpr ht
        omega
      rw [hto]
      exact hidx s0.length hlen
    rw [hskip]
    have hrest : ("var duraks = [".data ++ (body.data ++ (']' :: post.data)))
        = 'v' :: ("ar duraks = [".data ++ (body.data ++ (']' :: post.data))) := rfl
    rw [hrest, findDuraks_cons, ← hrest]
    have hm : matchDuraksAt ("var duraks = [".data ++ (body.data ++ (']' :: post.data)))
        = some ('[' :: (body.data ++ [']'])) := by
      rw [matchDuraks_at_vd,
        greedyBody_eval body.data post.data
          (fun c hc => bne_iff_ne.mpr (hbody c hc))
          (fun c hc => bne_iff_ne.mpr (hpost c hc))]
    rw [hm]
    rfl
  · intro p w1 w2 w3 mid rest doc hdoc h0 hw1 hw2 hw3 hmid
    obtain ⟨b, hgb⟩ := greedyBody_isSome mid rest hmid
    have hm2 : matchDuraksAt ('v' :: 'a' :: 'r' :: (w1 ++ (['d', 'u', 'r', 'a', 'k', 's'] ++
        (w2 ++ ('=' :: (w3 ++ ('[' :: (mid ++ (']' :: rest))))))))) = some ('[' :: b) := by
      rw [matchDuraksAt_assignment w1 w2 w3 (mid ++ (']' :: rest)) h0 hw1 hw2 hw3, hgb]
    obtain ⟨r, hr⟩ := findDuraks_isSome_append _ ⟨_, hm2⟩ p
    refine ⟨⟨r⟩, ?_⟩
    unfold extract_station_json
    rw [hdoc, hr]
    rfl
  · intro doc s h
    unfold extract_station_json at h
    cases hf : findDuraks doc.data with
    | none => rw [hf] at h; cases h
    | some cap =>
      rw [hf] at h
      have hcap : cap = s.data := by
        have h' : (⟨cap⟩ : String) = s := Option.some_inj.mp h
        rw [← h']
      rw [hcap] at hf
      obtain ⟨p, w1, w2, w3, b, j, h1, h2, h3, h4, h5, h6, h7, h8, h9⟩ :=
        findDuraks_some_assignment hf
      exact ⟨p, w1, w2, w3, b, j, h1, h2, h3, h4, h5, h6, h7, h8, h9⟩

/-- C1 witness: a document whose preceding text mentions `duraks` outside an
assignment still yields exactly the array of its (first) real assignment. -/
theorem extract_station_json_first_assignment_witness :
    extract_station_json ("duraks! " ++ "var duraks = [" ++ "1" ++ "]" ++ " x\n]") =
      some ("[" ++ "1" ++ "]") :=
  extract_station_json_first_assignment.1 "duraks! " "1" " x\n]"
    (by decide) (by decide) (by decide)

/-- C1 counterexample: the claim as stated fails — with a stray `']'` after
the assignment on the same line, the greedy `.*` makes the extractor return
`"[1] ]"`, not the bracketed array substring `"[1]"`. -/
theorem extract_station_json_greedy_counterexample :
    extract_station_json "var duraks = [1] ]" = some "[1] ]" ∧
      ("[1] ]" : String) ≠ "[1]" :=
  ⟨rfl, by decide⟩

/-- C7: for a document `pre ++ "hgID: " ++ digits ++ post` where the pattern
matches nowhere inside `pre` (so this is the first assignment), the digit
run is nonempty, and `post` does not begin with a further digit, the Line-ID
Extractor returns the digit string verbatim (as text, not parsed).
Moreover extraction succeeds on every document containing an
`hgID\s*:\s*digit` assignment, and whenever it returns a value, the value
is verbatim the nonempty digit string of an actual assignment present in
the document — contrapositively, an input with no such assignment yields
`none`. -/
theorem extract_line_id_digits :
    (∀ pre ds post : String,
        (∀ i, i < pre.data.length →
          matchHgAt (pre.data.drop i ++ ("hgID: ".data ++ (ds.data ++ post.data))) = none) →
        ds.data ≠ [] →
        (∀ c ∈ ds.data, isNd c = true) →
        (∀ c, post.data.head? = some c → isNd c = false) →
        extract_line_id (pre ++ "hgID: " ++ ds ++ post) = some ds) ∧
    (∀ (p w1 w2 : List Char) (d : Char) (rest : List Char) (doc : String),
        doc.data = p ++ (['h', 'g', 'I', 'D'] ++ (w1 ++ (':' :: (w2 ++ (d :: rest))))) →
        (∀ c ∈ w1, rsWs c = true) → (∀ c ∈ w2, rsWs c = true) → isNd d = true →
        ∃ s, extract_line_id doc = some s) ∧
    (∀ doc s : String, extract_line_id doc = some s →
        s.data ≠ [] ∧ (∀ c ∈ s.data, isNd c = true) ∧
        ∃ p w1 w2 j, (∀ c ∈ w1, rsWs c = true) ∧ (∀ c ∈ w2, rsWs c = true) ∧
          doc.data = p ++ (['h', 'g', 'I', 'D'] ++ (w1 ++ (':' :: (w2 ++ (s.data ++ j)))))) := by
  refine ⟨?_, ?_, ?_⟩
  · intro pre ds post hidx hne hds hpost
    unfold extract_line_id
    have hdata : (pre ++ "hgID: " ++ ds ++ post).data
        = pre.data ++ ("hgID: ".data ++ (ds.data ++ post.data)) := by
      simp
    rw [hdata]
    have hskip : findHg (pre.data ++ ("hgID: ".data ++ (ds.data ++ post.data)))
        = findHg ("hgID: ".data ++ (ds.data ++ post.data)) := by
      apply findHg_skip
      intro t ht hsuf
      obtain ⟨s0, hs0⟩ := hsuf
      have hto : t = pre.data.drop s0.length := by
        rw [← hs0, List.drop_left]
      have hlen : s0.length < pre.data.length := by
        have hl := congrArg List.length hs0
        rw [List.length_append] at hl
        have ht' := List.length_pos.mpr ht
        omega
      rw [hto]
      exact hidx s0.length hlen
    rw [hskip]
    obtain ⟨d, dtail, hd⟩ : ∃ d dtail, ds.data = d :: dtail := by
      cases hds' : ds.data with
      | nil => exact absurd hds' hne
      | cons d dtail => exact ⟨d, dtail, rfl⟩
    have hrest : ("hgID: ".data ++ (ds.data ++ post.data))
        = 'h' :: ("gID: ".data ++ (ds.data ++ post.data)) := rfl
    rw [hrest, findHg_cons, ← hrest]
    have hm : matchHgAt ("hgID: ".data ++ (ds.data ++ post.data)) = some ds.data := by
      rw [matchHg_at_s, hd, List.cons_append,
        List.dropWhile_cons_of_neg (by
          simp [isNd_not_ws (hds d (by rw [hd]; exact List.mem_cons_self _ _))]),
        ← List.cons_append,
        digitsPlus_digits d dtail post.data
          (hds d (by rw [hd]; exact List.mem_cons_self _ _))
          (fun c hc => hds c (by rw [hd]; exact List.mem_cons_of_mem _ hc)) hpost]
    rw [hm]
    rfl
  · intro p w1 w2 d rest doc hdoc hw1 hw2 hd
    have he : (w2 ++ (d :: rest)).dropWhile rsWs = d :: rest := by
      rw [dropWhile_append_all _ hw2, List.dropWhile_cons_of_neg (by simp [isNd_not_ws hd])]
    have hdg : digitsPlus (d :: rest) = some (d :: rest.takeWhile isNd) := by
      show (if isNd d then some (d :: rest.takeWhile isNd) else none) = _
      rw [if_pos hd]
    have hm2 : matchHgAt (['h', 'g', 'I', 'D'] ++ (w1 ++ (':' :: (w2 ++ (d :: rest)))))
        = some (d :: rest.takeWhile isNd) := by
      rw [matchHgAt_assignment w1 (w2 ++ (d :: rest)) hw1, he, hdg]
    obtain ⟨r, hr⟩ := findHg_isSome_append _ ⟨_, hm2⟩ p
    refine ⟨⟨r⟩, ?_⟩
    unfold extract_line_id
    rw [hdoc, hr]
    rfl
  · intro doc s h
    unfold extract_line_id at h
    cases hf : findHg doc.data with
    | none => rw [hf] at h; cases h
    | some cap =>
      rw [hf] at h
      have hcap : cap = s.data := by
        have h' : (⟨cap⟩ : String) = s := Option.some_inj.mp h
        rw [← h']
      rw [hcap] at hf
      obtain ⟨p, w1, w2, j, a, b, d, e, f⟩ := findHg_some_assignment hf
      exact ⟨d, e, p, w1, w2, j, a, b, f⟩

/-- C7 witness: a page where `hgID` first appears outside an assignment
still yields the digit string of the real assignment, verbatim. -/
theorem extract_line_id_digits_witness :
    extract_line_id ("hgID " ++ "hgID: " ++ "7" ++ ", x") = some "7" :=
  extract_line_id_digits.1 "hgID " "7" ", x"
    (by decide) (by decide) (by decide) (by decide)
